import Mathlib

set_option autoImplicit false

/-!
Verification of the iterables package: template interpolation, the iterable
service (define / get / generate), and the foreach batch executor, embedded
shallowly from the TypeScript sources.
-/

namespace Iterables

/-! JS-like value model for variable bags, provider specs and item payloads. -/

inductive JsValue where
  | null
  | bool (b : Bool)
  | num (n : Int)
  | str (s : String)
  | obj (fields : List (String × JsValue))

/-- First-match association-list lookup, the model of JS object property access. -/
def lookupAssoc {α : Type} : List (String × α) → String → Option α
  | [], _ => none
  | (k, v) :: rest, key => if k = key then some v else lookupAssoc rest key

/-- The string form a defined value takes in interpolation: JS String(value). -/
def jsString : JsValue → String
  | JsValue.null => "null"
  | JsValue.bool b => if b then "true" else "false"
  | JsValue.num n => toString n
  | JsValue.str s => s
  | JsValue.obj _ => "[object Object]"

/-- One step of optional-chaining property access: current?.[prop].
Undefined (none), null, and non-object values all index to undefined. -/
def jsIndex : Option JsValue → String → Option JsValue
  | none, _ => none
  | some (JsValue.obj fields), prop => lookupAssoc fields prop
  | some _, _ => none

/-- JS path.split("."): splits on every dot, keeping empty segments,
and maps the empty path to one empty segment. -/
def splitOnDot : List Char → List (List Char)
  | [] => [[]]
  | c :: rest =>
    if c = '.' then [] :: splitOnDot rest
    else
      match splitOnDot rest with
      | [] => [[c]]
      | seg :: segs => (c :: seg) :: segs

/-- Source: path.split(".").reduce((current, prop) => current?.[prop], obj). -/
def getNestedProperty (obj : JsValue) (path : String) : Option JsValue :=
  ((splitOnDot path.data).map String.mk).foldl jsIndex (some obj)

def lbrace : Char := Char.ofNat 123

def rbrace : Char := Char.ofNat 125

def colonChar : Char := Char.ofNat 58

/-- Character class of the token-key capture group: [^}:] in the source regex. -/
def isKeyChar (c : Char) : Bool := c != rbrace && c != colonChar

/-- Character class of the default-text capture group: [^}] in the source regex. -/
def isNotRBrace (c : Char) : Bool := c != rbrace

/-- Try to match one template token starting immediately after an opening brace.
Mirrors the regex fragment ([^}:]+)(?::([^}]*))?} of the source: returns the key,
the optional default text, and the characters after the closing brace; none when
the regex cannot match at this opening brace (empty key or unclosed token). -/
def matchToken (l : List Char) : Option (List Char × Option (List Char) × List Char) :=
  let key := l.takeWhile isKeyChar
  if key = [] then none
  else
    match l.dropWhile isKeyChar with
    | [] => none
    | d :: rest =>
      if d = rbrace then some (key, none, rest)
      else
        match rest.dropWhile isNotRBrace with
        | [] => none
        | _ :: rest2 => some (key, some (rest.takeWhile isNotRBrace), rest2)

/-- The replacement callback of the source:
value !== undefined ? String(value) : (defaultValue || match).
A falsy (empty) default falls back to the whole matched token text. -/
def resolveToken (vars : List (String × JsValue)) (key : List Char)
    (dflt : Option (List Char)) : List Char :=
  match getNestedProperty (JsValue.obj vars) (String.mk key) with
  | some v => (jsString v).data
  | none =>
    match dflt with
    | none => lbrace :: key ++ [rbrace]
    | some d => if d = [] then lbrace :: key ++ colonChar :: d ++ [rbrace] else d

/-- Fueled left-to-right scan of the template, replacing each regex match and
echoing every other character; each step consumes at least one character so
fuel equal to the template length always suffices. -/
def interpCharsF (vars : List (String × JsValue)) : Nat → List Char → List Char
  | _, [] => []
  | 0, l => l
  | fuel + 1, c :: rest =>
    if c = lbrace then
      match matchToken rest with
      | some (key, dflt, rest2) => resolveToken vars key dflt ++ interpCharsF vars fuel rest2
      | none => c :: interpCharsF vars fuel rest
    else c :: interpCharsF vars fuel rest

/-- Source: template.replace(tokenRegex, callback). -/
def interpolate (template : String) (vars : List (String × JsValue)) : String :=
  String.mk (interpCharsF vars template.data.length template.data)

/-! The iterable service: provider registry, definition store, generation. -/

/-- An item produced by a provider: a raw payload and an interpolation bag. -/
structure Item where
  value : JsValue
  vars : List (String × JsValue)

/-- A provider-specific opaque spec: a key to value mapping. -/
def IterableSpec : Type := List (String × JsValue)

/-- The sequence a provider generator produces: the items yielded in order,
then either normal termination (none) or a raised generation failure (some). -/
structure GenStream where
  items : List Item
  genErr : Option String

/-- A provider capability object: a type key, a description, and generation. -/
structure Provider where
  type : String
  description : String
  generate : IterableSpec → GenStream

/-- A stored iterable definition record. -/
structure StoredIterable where
  name : String
  type : String
  spec : IterableSpec
  description : Option String
  createdAt : Nat
  updatedAt : Nat

/-- The mutable state of the service: the provider registry and the
definition store, both keyed maps. -/
structure ServiceState where
  providers : List (String × Provider)
  iterables : List (String × StoredIterable)

/-- Map.set: replace the record stored under the key, or append a fresh one. -/
def setAssoc {α : Type} : List (String × α) → String → α → List (String × α)
  | [], key, v => [(key, v)]
  | (k, w) :: rest, key, v =>
    if k = key then (key, v) :: rest else (k, w) :: setAssoc rest key v

/-- IterableService.define: reject an unregistered provider type, otherwise
build a fresh record with both timestamps set to the current time and store it
under the name, replacing any prior record entirely. -/
def IterableService.define (st : ServiceState) (dname dtype : String)
    (spec : IterableSpec) (descr : Option String) (now : Nat) :
    Except String ServiceState :=
  match lookupAssoc st.providers dtype with
  | none => Except.error ("Unknown iterable type: " ++ dtype)
  | some _ =>
    Except.ok { st with
      iterables := setAssoc st.iterables dname
        { name := dname, type := dtype, spec := spec, description := descr,
          createdAt := now, updatedAt := now } }

/-- IterableService.get: lookup in the definition store. -/
def IterableService.get (st : ServiceState) (name : String) : Option StoredIterable :=
  lookupAssoc st.iterables name

/-- IterableService.generate: resolve the definition, then its provider, then
delegate; the method reads state only, so the returned state is the input state. -/
def IterableService.generate (st : ServiceState) (name : String) :
    Except String GenStream × ServiceState :=
  (match lookupAssoc st.iterables name with
   | none => Except.error ("Iterable not found: " ++ name)
   | some it =>
     match lookupAssoc st.providers it.type with
     | none => Except.error ("Provider not found for type: " ++ it.type)
     | some p => Except.ok (p.generate it.spec),
   st)

/-! The foreach batch executor. -/

/-- The whitespace class trimmed by JS String.prototype.trim (ASCII part). -/
def jsWs (c : Char) : Bool := c == ' ' || c == '\t' || c == '\n' || c == '\r'

/-- JS String.prototype.trim on the character list. -/
def jsTrim (l : List Char) : List Char :=
  ((l.dropWhile jsWs).reverse.dropWhile jsWs).reverse

def singleQuote : Char := Char.ofNat 39

/-- The quote class of the source regex /^["']|["']$/. -/
def isQuote (c : Char) : Bool := c == '"' || c == singleQuote

/-- Remove one leading quote character when present. -/
def stripLeadingQuote : List Char → List Char
  | [] => []
  | c :: rest => if isQuote c then rest else c :: rest

/-- Source: .replace(quoteEdgeRegex, ""): strip at most one leading and then
at most one trailing quote character. -/
def stripQuotes (l : List Char) : List Char :=
  ((stripLeadingQuote l).reverse |> stripLeadingQuote).reverse

inductive ParseResult where
  | usage
  | ok (name : String) (prompt : String)
deriving DecidableEq

/-- The parse stage of the foreach executor: trim the input, require a leading
at sign and a space-separated remainder, then trim and quote-strip the template
and require it non-empty. The iterable name between the at sign and the first
space is not itself validated. -/
def parseForeach (remainder : String) : ParseResult :=
  match jsTrim remainder.data with
  | [] => ParseResult.usage
  | c :: rest =>
    if c = '@' then
      match rest.dropWhile (fun ch => ch != ' ') with
      | [] => ParseResult.usage
      | _ :: afterSpace =>
        let prompt := stripQuotes (jsTrim afterSpace)
        if prompt = [] then ParseResult.usage
        else ParseResult.ok (String.mk (rest.takeWhile (fun ch => ch != ' ')))
               (String.mk prompt)
    else ParseResult.usage

/-- Observable things the executor does, in order: progress and error lines,
and each action-runner invocation with its text and the context it runs in. -/
inductive Event (σ : Type) where
  | info (msg : String)
  | errorLine (msg : String)
  | invoke (text : String) (ctx : σ)
deriving DecidableEq

def usageMsg : String := "Usage: /foreach @<iterable> <prompt>"

def processingMsg (n : Nat) : String := "Processing item " ++ toString n ++ "..."

def processedMsg (n : Nat) : String := "Processed " ++ toString n ++ " items"

def itemErrorMsg (n : Nat) (e : String) : String :=
  "Error processing item " ++ toString n ++ ": " ++ e

/-- The per-item loop of the executor. For each item: emit progress,
interpolate, invoke the runner (catching its failure and reporting it tagged
with the 1-based count), then restore the checkpoint. On exit: normal
completion reports the total count; a generation failure is re-raised; either
way the checkpoint is restored one final time by the guaranteed-cleanup step. -/
def runLoop {σ : Type} (runner : String → σ → Except String σ) (prompt : String)
    (checkpoint : σ) :
    List Item → Option String → Nat → σ → List (Event σ) × σ × Option String
  | [], genErr, count, _ =>
    match genErr with
    | none => ([Event.info (processedMsg count)], checkpoint, none)
    | some e => ([], checkpoint, some e)
  | item :: rest, genErr, count, ctx =>
    let text := interpolate prompt item.vars
    let errEvs : List (Event σ) :=
      match runner text ctx with
      | Except.ok _ => []
      | Except.error e => [Event.errorLine (itemErrorMsg (count + 1) e)]
    let tail := runLoop runner prompt checkpoint rest genErr (count + 1) checkpoint
    (Event.info (processingMsg (count + 1)) :: Event.invoke text ctx :: errEvs ++ tail.1,
     tail.2)

/-- The foreach executor: parse, and on success capture the checkpoint, pull
the stream for the parsed name and run the loop. On a parse failure it stops
with the usage error before capturing a checkpoint or pulling anything. -/
def executeForeach {σ : Type} (runner : String → σ → Except String σ)
    (gen : String → GenStream) (remainder : String) (ctx : σ) :
    List (Event σ) × σ × Option String :=
  match parseForeach remainder with
  | ParseResult.usage => ([Event.errorLine usageMsg], ctx, none)
  | ParseResult.ok name prompt =>
    let st := gen name
    runLoop runner prompt ctx st.items st.genErr 0 ctx

/-- The action-runner invocation texts of a trace, in order. -/
def invokeTexts {σ : Type} (evs : List (Event σ)) : List String :=
  evs.filterMap (fun e =>
    match e with
    | Event.invoke t _ => some t
    | _ => none)

/-! Support definitions for concrete scenarios. -/

/-- The three-item range scenario of the spec: variables i = 0, 1, 2. -/
def rangeItems : List Item :=
  [{ value := JsValue.num 0, vars := [("i", JsValue.num 0)] },
   { value := JsValue.num 1, vars := [("i", JsValue.num 1)] },
   { value := JsValue.num 2, vars := [("i", JsValue.num 2)] }]

/-- A generation function exposing the range scenario under the name range. -/
def rangeGen : String → GenStream := fun name =>
  if name = "range" then { items := rangeItems, genErr := none }
  else { items := [], genErr := some ("Iterable not found: " ++ name) }

/-- A provider that yields one item built from its spec, after the static
test provider of the repository. -/
def staticProvider : Provider :=
  { type := "static", description := "Static iterable provider",
    generate := fun spec => { items := [{ value := JsValue.null, vars := spec }], genErr := none } }

/-- A runner over a Nat-valued context that always succeeds by bumping it. -/
def bumpRunner : String → Nat → Except String Nat := fun _ c => Except.ok (c + 1)

/-- A runner that fails exactly on the interpolation of the second range item. -/
def failOnN1Runner : String → Nat → Except String Nat := fun t c =>
  if t = "n=1" then Except.error "boom" else Except.ok (c + 1)

/-- A single-token template with no default: an opening brace, the key, a
closing brace. -/
def plainToken (key : String) : String :=
  String.mk (lbrace :: (key.data ++ [rbrace]))

/-- A single-token template with a default: brace, key, colon, default, brace. -/
def tokenWithDefault (key d : String) : String :=
  String.mk (lbrace :: (key.data ++ (colonChar :: (d.data ++ [rbrace]))))

/-- The token of the C1 counterexample: a key with a supplied empty default. -/
def emptyDefaultToken : String := "\x7ba:\x7d"

/-! Helper lemmas. -/

theorem takeWhile_append_all (p : Char → Bool) (l r : List Char)
    (h : ∀ c ∈ l, p c = true) :
    (l ++ r).takeWhile p = l ++ r.takeWhile p := by
  induction l with
  | nil => simp
  | cons a l ih =>
    have ha : p a = true := h a (by simp)
    simp [List.takeWhile_cons, ha, ih (fun c hc => h c (by simp [hc]))]

theorem dropWhile_append_all (p : Char → Bool) (l r : List Char)
    (h : ∀ c ∈ l, p c = true) :
    (l ++ r).dropWhile p = r.dropWhile p := by
  induction l with
  | nil => simp
  | cons a l ih =>
    have ha : p a = true := h a (by simp)
    simp [List.dropWhile_cons, ha, ih (fun c hc => h c (by simp [hc]))]

theorem matchToken_no_default (key : List Char) (hk0 : key ≠ [])
    (hk : ∀ c ∈ key, isKeyChar c = true) :
    matchToken (key ++ [rbrace]) = some (key, none, []) := by
  unfold matchToken
  rw [takeWhile_append_all _ _ _ hk, dropWhile_append_all _ _ _ hk]
  simp [hk0, isKeyChar]

theorem matchToken_with_default (key d : List Char) (hk0 : key ≠ [])
    (hk : ∀ c ∈ key, isKeyChar c = true)
    (hd : ∀ c ∈ d, isNotRBrace c = true) :
    matchToken (key ++ (colonChar :: (d ++ [rbrace]))) = some (key, some d, []) := by
  have hck : isKeyChar colonChar = false := by decide
  have h1 : (key ++ (colonChar :: (d ++ [rbrace]))).takeWhile isKeyChar = key := by
    rw [takeWhile_append_all _ _ _ hk]
    simp [List.takeWhile_cons, hck]
  have h2 : (key ++ (colonChar :: (d ++ [rbrace]))).dropWhile isKeyChar
      = colonChar :: (d ++ [rbrace]) := by
    rw [dropWhile_append_all _ _ _ hk]
    simp [List.dropWhile_cons, hck]
  have h3 : (d ++ [rbrace]).dropWhile isNotRBrace = [rbrace] := by
    rw [dropWhile_append_all _ _ _ hd]
    simp [List.dropWhile_cons, show isNotRBrace rbrace = false by decide]
  have h4 : (d ++ [rbrace]).takeWhile isNotRBrace = d := by
    rw [takeWhile_append_all _ _ _ hd]
    simp [List.takeWhile_cons, show isNotRBrace rbrace = false by decide]
  simp [matchToken, h1, h2, h3, h4, hk0, show colonChar ≠ rbrace by decide]

theorem interpCharsF_token (vars : List (String × JsValue)) (rest key : List Char)
    (dflt : Option (List Char)) (n : Nat)
    (hm : matchToken rest = some (key, dflt, [])) :
    interpCharsF vars (n + 1) (lbrace :: rest) = resolveToken vars key dflt := by
  simp [interpCharsF, hm]

theorem lookupAssoc_setAssoc {α : Type} (l : List (String × α)) (k : String) (v : α) :
    lookupAssoc (setAssoc l k v) k = some v := by
  induction l with
  | nil => simp [setAssoc, lookupAssoc]
  | cons p rest ih =>
    obtain ⟨k0, w⟩ := p
    by_cases h : k0 = k
    · simp [setAssoc, lookupAssoc, h]
    · simp [setAssoc, lookupAssoc, h, ih]

theorem runLoop_final {σ : Type} (runner : String → σ → Except String σ)
    (prompt : String) (cp : σ) (items : List Item) (genErr : Option String)
    (count : Nat) (ctx : σ) :
    (runLoop runner prompt cp items genErr count ctx).2.1 = cp ∧
    (runLoop runner prompt cp items genErr count ctx).2.2 = genErr := by
  induction items generalizing count ctx with
  | nil => cases genErr <;> simp [runLoop]
  | cons item rest ih => simp [runLoop, ih]

theorem runLoop_invoke_ctx {σ : Type} (runner : String → σ → Except String σ)
    (prompt : String) (cp : σ) (items : List Item) (genErr : Option String)
    (count : Nat) :
    ∀ t c, Event.invoke t c ∈ (runLoop runner prompt cp items genErr count cp).1 →
      c = cp := by
  induction items generalizing count with
  | nil =>
    intro t c hmem
    cases genErr <;> simp [runLoop] at hmem
  | cons item rest ih =>
    intro t c hmem
    rcases hr : runner (interpolate prompt item.vars) cp with e | e <;>
      simp [runLoop, hr] at hmem <;>
      rcases hmem with ⟨ht, hc⟩ | h
    · exact hc
    · exact ih (count + 1) t c h
    · exact hc
    · exact ih (count + 1) t c h

theorem runLoop_invokeTexts {σ : Type} (runner : String → σ → Except String σ)
    (prompt : String) (cp : σ) (items : List Item) (genErr : Option String)
    (count : Nat) (ctx : σ) :
    invokeTexts (runLoop runner prompt cp items genErr count ctx).1
      = items.map (fun it => interpolate prompt it.vars) := by
  induction items generalizing count ctx with
  | nil => cases genErr <;> simp [runLoop, invokeTexts]
  | cons item rest ih =>
    simp only [runLoop, invokeTexts, List.filterMap_cons, List.filterMap_append]
    rcases hr : runner (interpolate prompt item.vars) ctx with e | e <;>
      simp [invokeTexts] at ih ⊢ <;> exact ih _ _

theorem runLoop_error_event {σ : Type} (runner : String → σ → Except String σ)
    (prompt : String) (cp : σ) :
    ∀ (items : List Item) (count : Nat) (k : Nat) (hk : k < items.length) (e : String),
      runner (interpolate prompt (items.get ⟨k, hk⟩).vars) cp = Except.error e →
      Event.errorLine (itemErrorMsg (count + k + 1) e)
        ∈ (runLoop runner prompt cp items none count cp).1 := by
  intro items
  induction items with
  | nil => intro count k hk; simp at hk
  | cons item rest ih =>
    intro count k hk e hf
    cases k with
    | zero =>
      simp only [List.get] at hf
      simp [runLoop, hf]
    | succ k0 =>
      have hk0 : k0 < rest.length := Nat.lt_of_succ_lt_succ hk
      have hrec := ih (count + 1) k0 hk0 e (by simpa using hf)
      have harith : count + 1 + k0 + 1 = count + (k0 + 1) + 1 := by omega
      rw [harith] at hrec
      exact List.mem_cons_of_mem _ (List.mem_cons_of_mem _ (List.mem_append_right _ hrec))

/-! Claim theorems. -/

/-- C1 counterexample: for the token with a supplied empty default resolved
against an empty bag, the code echoes the token verbatim instead of replacing
it with the (empty) default text, so the claim as stated is false. -/
theorem interpolate_empty_default_counterexample :
    interpolate emptyDefaultToken [] = emptyDefaultToken ∧
    interpolate emptyDefaultToken [] ≠ "" := by
  exact ⟨rfl, by decide⟩

/-- C1 (amended): for a template token with a supplied default, if the dot-path
key resolves to a defined value its string form replaces the token; if it
resolves to undefined, a non-empty default replaces the token, while a supplied
empty default falls back to echoing the token verbatim. -/
theorem interpolate_token_default_resolution (key d : String)
    (vars : List (String × JsValue))
    (hk0 : key.data ≠ [])
    (hk : ∀ c ∈ key.data, isKeyChar c = true)
    (hd : ∀ c ∈ d.data, isNotRBrace c = true) :
    interpolate (tokenWithDefault key d) vars =
      match getNestedProperty (JsValue.obj vars) key with
      | some v => jsString v
      | none => if d = "" then tokenWithDefault key d else d := by
  have hm := matchToken_with_default key.data d.data hk0 hk hd
  have hdata : (tokenWithDefault key d).data
      = lbrace :: (key.data ++ (colonChar :: (d.data ++ [rbrace]))) := rfl
  have hlen : (tokenWithDefault key d).data.length
      = (key.data.length + d.data.length + 2) + 1 := by
    rw [hdata]; simp; omega
  unfold interpolate
  rw [hdata] at hlen ⊢
  rw [hlen, interpCharsF_token _ _ _ _ _ hm]
  unfold resolveToken
  rw [show String.mk key.data = key from rfl]
  rcases hg : getNestedProperty (JsValue.obj vars) key with _ | v
  · by_cases hde : d = ""
    · subst hde
      simp [tokenWithDefault]
    · have hde2 : d.data ≠ [] := fun hc => hde (congrArg String.mk hc)
      simp [hde, hde2]
  · rfl

theorem interpolate_token_default_resolution_witness :
    interpolate (tokenWithDefault "a.b" "z") [("a", JsValue.obj [])] = "z" := by
  have h := interpolate_token_default_resolution "a.b" "z" [("a", JsValue.obj [])]
      (by decide) (by decide) (by decide)
  rw [show getNestedProperty (JsValue.obj [("a", JsValue.obj [])]) "a.b" = none from rfl] at h
  simpa using h

/-- C5: a token with no supplied default whose dot-path key does not fully
resolve (a segment missing or an intermediate value not a traversable object,
at any depth, which is exactly when getNestedProperty yields undefined) is left
verbatim in the output, and no error is raised. -/
theorem interpolate_missing_echo (key : String) (vars : List (String × JsValue))
    (hk0 : key.data ≠ [])
    (hk : ∀ c ∈ key.data, isKeyChar c = true)
    (hmiss : getNestedProperty (JsValue.obj vars) key = none) :
    interpolate (plainToken key) vars = plainToken key := by
  have hm := matchToken_no_default key.data hk0 hk
  have hdata : (plainToken key).data = lbrace :: (key.data ++ [rbrace]) := rfl
  have hlen : (plainToken key).data.length = (key.data.length + 1) + 1 := by
    rw [hdata]; simp
  unfold interpolate
  rw [hdata] at hlen ⊢
  rw [hlen, interpCharsF_token _ _ _ _ _ hm]
  unfold resolveToken
  rw [show String.mk key.data = key from rfl, hmiss]
  rfl

theorem interpolate_missing_echo_witness :
    interpolate (plainToken "a.b.c") [("a", JsValue.obj [("b", JsValue.num 5)])]
      = plainToken "a.b.c" :=
  interpolate_missing_echo "a.b.c" [("a", JsValue.obj [("b", JsValue.num 5)])]
    (by decide) (by decide) rfl

/-- C6: generating an undefined name always fails with the UndefinedIterable
error (Iterable not found), regardless of the registry contents, and leaves the
service state unchanged. -/
theorem generate_undefined_fails (st : ServiceState) (name : String)
    (h : lookupAssoc st.iterables name = none) :
    IterableService.generate st name
      = (Except.error ("Iterable not found: " ++ name), st) := by
  simp [IterableService.generate, h]

def emptyStoreState : ServiceState :=
  { providers := [("static", staticProvider)], iterables := [] }

theorem generate_undefined_fails_witness :
    IterableService.generate emptyStoreState "x"
      = (Except.error ("Iterable not found: " ++ "x"), emptyStoreState) :=
  generate_undefined_fails emptyStoreState "x" rfl

/-- C7: for a defined name whose provider type is registered, the service
forwards exactly the stream produced by the provider on the stored spec:
same items, same order, same cardinality, and the provider's own terminal
failure at the same position, with no wrapping. -/
theorem generate_delegates (st : ServiceState) (name : String)
    (it : StoredIterable) (p : Provider)
    (h1 : lookupAssoc st.iterables name = some it)
    (h2 : lookupAssoc st.providers it.type = some p) :
    (IterableService.generate st name).1 = Except.ok (p.generate it.spec) := by
  simp [IterableService.generate, h1, h2]

def demoSpec : IterableSpec := [("value", JsValue.num 7)]

def demoRecord : StoredIterable :=
  { name := "demo", type := "static", spec := demoSpec, description := none,
    createdAt := 0, updatedAt := 0 }

def demoState : ServiceState :=
  { providers := [("static", staticProvider)],
    iterables := [("demo", demoRecord)] }

theorem generate_delegates_witness :
    (IterableService.generate demoState "demo").1
      = Except.ok (staticProvider.generate demoSpec) :=
  generate_delegates demoState "demo" demoRecord staticProvider rfl rfl

/-- C8: when the provider type is registered, define succeeds and get then
returns a record whose type and spec are the inputs and whose createdAt and
updatedAt both equal the time of the define call; the stored record is the
fresh one in full, irrespective of any prior record under the same name. -/
theorem define_then_get (st : ServiceState) (dname dtype : String)
    (spec : IterableSpec) (descr : Option String) (now : Nat) (p : Provider)
    (hp : lookupAssoc st.providers dtype = some p) :
    ∃ st2, IterableService.define st dname dtype spec descr now = Except.ok st2 ∧
      IterableService.get st2 dname
        = some { name := dname, type := dtype, spec := spec, description := descr,
                 createdAt := now, updatedAt := now } := by
  refine ⟨{ st with iterables := setAssoc st.iterables dname ⟨dname, dtype, spec, descr, now, now⟩ }, ?_, ?_⟩
  · simp [IterableService.define, hp]
  · simp [IterableService.get, lookupAssoc_setAssoc]

def preState : ServiceState :=
  { providers := [("static", staticProvider)],
    iterables := [("x", (⟨"x", "old", [], none, 1, 2⟩ : StoredIterable))] }

theorem define_then_get_witness :
    ∃ st2, IterableService.define preState "x" "static" demoSpec none 7
        = Except.ok st2 ∧
      IterableService.get st2 "x"
        = some { name := "x", type := "static", spec := demoSpec,
                 description := none, createdAt := 7, updatedAt := 7 } :=
  define_then_get preState "x" "static" demoSpec none 7 staticProvider rfl

/-- C2: for every batch run that enters the iteration loop, the context handed
to the action runner is the checkpoint for every item (restore after each item
keeps the baseline identical), the post-run context equals the pre-run
checkpoint through the guaranteed final restore on any exit path, and a
generation failure of the pulled stream propagates to the caller. -/
theorem foreach_checkpoint_restore {σ : Type} (runner : String → σ → Except String σ)
    (gen : String → GenStream) (remainder name prompt : String) (ctx : σ)
    (hp : parseForeach remainder = ParseResult.ok name prompt) :
    (executeForeach runner gen remainder ctx).2.1 = ctx ∧
    (executeForeach runner gen remainder ctx).2.2 = (gen name).genErr ∧
    ∀ t c, Event.invoke t c ∈ (executeForeach runner gen remainder ctx).1 → c = ctx := by
  simp only [executeForeach, hp]
  exact ⟨(runLoop_final runner prompt ctx (gen name).items (gen name).genErr 0 ctx).1,
    (runLoop_final runner prompt ctx (gen name).items (gen name).genErr 0 ctx).2,
    fun t c h =>
      runLoop_invoke_ctx runner prompt ctx (gen name).items (gen name).genErr 0 t c h⟩

def c2Gen : String → GenStream := fun _ =>
  { items := [{ value := JsValue.null, vars := [] }], genErr := some "boom" }

theorem foreach_checkpoint_restore_witness :
    (executeForeach bumpRunner c2Gen "@a b" (5 : Nat)).2.1 = 5 ∧
    (executeForeach bumpRunner c2Gen "@a b" (5 : Nat)).2.2 = some "boom" := by
  have h := foreach_checkpoint_restore bumpRunner c2Gen "@a b" "a" "b" 5 rfl
  exact ⟨h.1, h.2.1⟩

/-- C3: if the action runner fails on the k-th pulled item of a normally
terminating stream, the failure is reported tagged with that item's 1-based
index, every item of the batch is still interpolated and handed to the runner
in order, and the run does not abort with a propagated failure. -/
theorem foreach_failure_isolation {σ : Type} (runner : String → σ → Except String σ)
    (gen : String → GenStream) (remainder name prompt : String) (ctx : σ)
    (items : List Item) (k : Nat) (e : String)
    (hp : parseForeach remainder = ParseResult.ok name prompt)
    (hg : gen name = { items := items, genErr := none })
    (hk : k < items.length)
    (hf : runner (interpolate prompt (items.get ⟨k, hk⟩).vars) ctx = Except.error e) :
    invokeTexts (executeForeach runner gen remainder ctx).1
        = items.map (fun it => interpolate prompt it.vars) ∧
    Event.errorLine (itemErrorMsg (k + 1) e)
        ∈ (executeForeach runner gen remainder ctx).1 ∧
    (executeForeach runner gen remainder ctx).2.2 = none := by
  simp only [executeForeach, hp, hg]
  refine ⟨runLoop_invokeTexts runner prompt ctx items none 0 ctx, ?_,
    (runLoop_final runner prompt ctx items none 0 ctx).2⟩
  have h := runLoop_error_event runner prompt ctx items 0 k hk e hf
  simpa using h

def threeGen : String → GenStream := fun _ => { items := rangeItems, genErr := none }

theorem foreach_failure_isolation_witness :
    invokeTexts (executeForeach failOnN1Runner threeGen "@r n=\x7bi\x7d" (0 : Nat)).1
        = ["n=0", "n=1", "n=2"] ∧
    Event.errorLine (itemErrorMsg 2 "boom")
        ∈ (executeForeach failOnN1Runner threeGen "@r n=\x7bi\x7d" (0 : Nat)).1 ∧
    (executeForeach failOnN1Runner threeGen "@r n=\x7bi\x7d" (0 : Nat)).2.2 = none := by
  have h := foreach_failure_isolation failOnN1Runner threeGen "@r n=\x7bi\x7d" "r"
      "n=\x7bi\x7d" 0 rangeItems 1 "boom" rfl rfl (by decide) rfl
  exact ⟨h.1, h.2.1, h.2.2⟩

/-- The batch input of the range scenario. -/
def rangeRemainder : String := "@range n=\x7bi\x7d"

/-- C4: the range scenario: three items with i = 0, 1, 2, template n={i};
whatever the runner does and whatever the starting context is, the runner is
invoked exactly three times with n=0, n=1, n=2 in that order, and the post-run
context equals the pre-run checkpoint. -/
theorem foreach_range_scenario {σ : Type} (runner : String → σ → Except String σ)
    (ctx : σ) :
    invokeTexts (executeForeach runner rangeGen rangeRemainder ctx).1
        = ["n=0", "n=1", "n=2"] ∧
    (executeForeach runner rangeGen rangeRemainder ctx).2.1 = ctx := by
  have hp : parseForeach rangeRemainder = ParseResult.ok "range" "n=\x7bi\x7d" := rfl
  simp only [executeForeach, hp]
  constructor
  · rw [runLoop_invokeTexts]
    rfl
  · exact (runLoop_final runner "n=\x7bi\x7d" ctx (rangeGen "range").items
      (rangeGen "range").genErr 0 ctx).1

/-- C9 counterexample: the input with an empty name after the at sign is
malformed per the claim, yet it is not rejected with the usage error: the
executor proceeds into the loop and pulls an item. -/
theorem foreach_empty_name_counterexample :
    parseForeach "@ x" = ParseResult.ok "" "x" ∧
    Event.info (processingMsg 1) ∈ (executeForeach bumpRunner threeGen "@ x" (0 : Nat)).1 ∧
    (executeForeach bumpRunner threeGen "@ x" (0 : Nat)).1 ≠ [Event.errorLine usageMsg] := by
  refine ⟨rfl, ?_, ?_⟩ <;> decide

/-- C9 (amended): an input that is blank, does not start with the at sign, has
no space after the name, or whose template is empty after trimming and
quote-stripping fails with the usage error and stops before any side effect:
the result is independent of the runner and the generator, and the context is
returned unchanged. An empty name between the at sign and the first space is
not itself rejected at parse time. -/
theorem foreach_usage_no_side_effect {σ : Type} (runner : String → σ → Except String σ)
    (gen : String → GenStream) (remainder : String) (ctx : σ)
    (h : parseForeach remainder = ParseResult.usage) :
    executeForeach runner gen remainder ctx = ([Event.errorLine usageMsg], ctx, none) := by
  simp [executeForeach, h]

theorem foreach_usage_no_side_effect_witness :
    executeForeach bumpRunner threeGen "@name" (3 : Nat)
      = ([Event.errorLine usageMsg], 3, none) :=
  foreach_usage_no_side_effect bumpRunner threeGen "@name" 3 rfl

theorem quote_not_ws (c : Char) (h : isQuote c = true) : jsWs c = false := by
  simp [isQuote] at h
  rcases h with h | h <;> subst h <;> decide

theorem head?_reverse_eq_getLast? (l : List Char) : l.reverse.head? = l.getLast? := by
  induction l with
  | nil => rfl
  | cons a l ih =>
    cases l with
    | nil => rfl
    | cons b m =>
      rw [List.reverse_cons, List.head?_append_of_ne_nil _ (by simp), ih,
        List.getLast?_cons_cons]

theorem dropWhile_eq_self_of_head (p : Char → Bool) (l : List Char)
    (h : ∀ c, l.head? = some c → p c = false) : l.dropWhile p = l := by
  cases l with
  | nil => rfl
  | cons a r => exact List.dropWhile_cons_of_neg (by simp [h a rfl])

theorem jsTrim_id (l : List Char)
    (h1 : ∀ c, l.head? = some c → jsWs c = false)
    (h2 : ∀ c, l.getLast? = some c → jsWs c = false) :
    jsTrim l = l := by
  unfold jsTrim
  rw [dropWhile_eq_self_of_head _ _ h1]
  rw [dropWhile_eq_self_of_head _ _
    (fun c hc => h2 c (by rwa [← head?_reverse_eq_getLast?]))]
  exact List.reverse_reverse l

theorem stripLeadingQuote_eq_self (l : List Char)
    (h : ∀ c, l.head? = some c → isQuote c = false) : stripLeadingQuote l = l := by
  cases l with
  | nil => rfl
  | cons a r => simp [stripLeadingQuote, h a rfl]

theorem stripQuotes_quoted (q1 q2 : Char) (t : List Char)
    (hq1 : isQuote q1 = true) (hq2 : isQuote q2 = true) :
    stripQuotes (q1 :: (t ++ [q2])) = t := by
  have h1 : stripLeadingQuote (q1 :: (t ++ [q2])) = t ++ [q2] := by
    simp [stripLeadingQuote, hq1]
  have h2 : (t ++ [q2]).reverse = q2 :: t.reverse := by simp
  have h3 : stripLeadingQuote (q2 :: t.reverse) = t.reverse := by
    simp [stripLeadingQuote, hq2]
  simp [stripQuotes, h1, h2, h3]

/-- An optional edge quote character as a character list. -/
def optChar : Option Char → List Char
  | some c => [c]
  | none => []

/-- A batch input assembled from a name and a template carrying an optional
leading and an optional trailing quote character. -/
def mkQuoted (name : String) (q1 : Option Char) (t : String) (q2 : Option Char) : String :=
  String.mk ('@' :: (name.data ++ (' ' :: (optChar q1 ++ (t.data ++ optChar q2)))))

/-- stripQuotes removes exactly the present edge quotes: one leading when
present, one trailing when present, each side independently. -/
theorem stripQuotes_opt (q1 q2 : Option Char) (ts : List Char) (hts : ts ≠ [])
    (hq1 : ∀ c, q1 = some c → isQuote c = true)
    (hq2 : ∀ c, q2 = some c → isQuote c = true)
    (hl : q1 = none → ∀ c, ts.head? = some c → isQuote c = false)
    (hr : q2 = none → ∀ c, ts.getLast? = some c → isQuote c = false) :
    stripQuotes (optChar q1 ++ (ts ++ optChar q2)) = ts := by
  rcases q1 with _ | c1 <;> rcases q2 with _ | c2
  · have h1 : stripLeadingQuote ts = ts := stripLeadingQuote_eq_self ts (hl rfl)
    have h2 : stripLeadingQuote ts.reverse = ts.reverse :=
      stripLeadingQuote_eq_self _
        (fun c hc => hr rfl c (head?_reverse_eq_getLast? ts ▸ hc))
    simp [optChar, stripQuotes, h1, h2]
  · have h1 : stripLeadingQuote (ts ++ [c2]) = ts ++ [c2] := by
      cases ts with
      | nil => exact absurd rfl hts
      | cons a r =>
        refine stripLeadingQuote_eq_self _ ?_
        intro c hc
        simp at hc
        exact hc ▸ hl rfl a rfl
    have h2 : stripLeadingQuote (c2 :: ts.reverse) = ts.reverse := by
      simp [stripLeadingQuote, hq2 c2 rfl]
    simp [optChar, stripQuotes, h1, h2]
  · have h1 : stripLeadingQuote (c1 :: ts) = ts := by
      simp [stripLeadingQuote, hq1 c1 rfl]
    have h2 : stripLeadingQuote ts.reverse = ts.reverse :=
      stripLeadingQuote_eq_self _
        (fun c hc => hr rfl c (head?_reverse_eq_getLast? ts ▸ hc))
    simp [optChar, stripQuotes, h1, h2]
  · have h := stripQuotes_quoted c1 c2 ts (hq1 c1 rfl) (hq2 c2 rfl)
    simpa [optChar] using h

/-- The parse stage on a well-shaped input: at sign, space-free name, one
space, then a template region fixed by trimming; the prompt is the
quote-stripped region. -/
theorem parseForeach_at_name (name : String) (rest : List Char)
    (hn : ∀ c ∈ name.data, (c != ' ') = true)
    (htrimAll : jsTrim ('@' :: (name.data ++ (' ' :: rest)))
      = '@' :: (name.data ++ (' ' :: rest)))
    (htrimRest : jsTrim rest = rest)
    (hne : stripQuotes rest ≠ []) :
    parseForeach (String.mk ('@' :: (name.data ++ (' ' :: rest))))
      = ParseResult.ok name (String.mk (stripQuotes rest)) := by
  have hdrop : (name.data ++ (' ' :: rest)).dropWhile (fun ch => ch != ' ')
      = ' ' :: rest := by
    rw [dropWhile_append_all _ _ _ hn]
    simp [List.dropWhile_cons]
  have htake : (name.data ++ (' ' :: rest)).takeWhile (fun ch => ch != ' ')
      = name.data := by
    rw [takeWhile_append_all _ _ _ hn]
    simp [List.takeWhile_cons]
  unfold parseForeach
  rw [show (String.mk ('@' :: (name.data ++ (' ' :: rest)))).data
      = '@' :: (name.data ++ (' ' :: rest)) from rfl, htrimAll]
  simp only [hdrop, htake, htrimRest]
  simp [hne]

/-- C10: before iterating, the executor trims the template and strips at most
one leading and at most one trailing quote character (single or double), each
side independently; for every batch input whose template begins with such a
quote, ends with one, or both, the action runner receives the interpolation of
the template without those quote characters for every pulled item. The
hypotheses on an unquoted side say only that the bare template does not itself
start or end there with a quote or whitespace, so the stripped form is the
stated one. -/
theorem foreach_quote_strip {σ : Type} (runner : String → σ → Except String σ)
    (gen : String → GenStream) (name t : String) (q1 q2 : Option Char) (ctx : σ)
    (hn : ' ' ∉ name.data) (ht : t.data ≠ [])
    (hq1 : ∀ c, q1 = some c → isQuote c = true)
    (hq2 : ∀ c, q2 = some c → isQuote c = true)
    (hl : q1 = none → ∀ c, t.data.head? = some c → isQuote c = false ∧ jsWs c = false)
    (hr : q2 = none → ∀ c, t.data.getLast? = some c → isQuote c = false ∧ jsWs c = false) :
    parseForeach (mkQuoted name q1 t q2) = ParseResult.ok name t ∧
    invokeTexts (executeForeach runner gen (mkQuoted name q1 t q2) ctx).1
      = (gen name).items.map (fun it => interpolate t it.vars) := by
  have hn2 : ∀ c ∈ name.data, (c != ' ') = true := by
    intro c hc
    simp only [bne_iff_ne, ne_eq]
    exact fun hce => hn (hce ▸ hc)
  have hstrip : stripQuotes (optChar q1 ++ (t.data ++ optChar q2)) = t.data :=
    stripQuotes_opt q1 q2 t.data ht hq1 hq2
      (fun hq c hc => (hl hq c hc).1) (fun hq c hc => (hr hq c hc).1)
  have hh : ∀ c, (optChar q1 ++ (t.data ++ optChar q2)).head? = some c →
      jsWs c = false := by
    intro c hc
    rcases q1 with _ | c1
    · rw [show optChar none ++ (t.data ++ optChar q2) = t.data ++ optChar q2 from rfl,
        List.head?_append_of_ne_nil _ ht] at hc
      exact (hl rfl c hc).2
    · simp [optChar] at hc
      exact hc ▸ quote_not_ws c1 (hq1 c1 rfl)
  have hlast : ∀ c, (optChar q1 ++ (t.data ++ optChar q2)).getLast? = some c →
      jsWs c = false := by
    intro c hc
    rcases q2 with _ | c2
    · rw [show t.data ++ optChar none = t.data from by simp [optChar],
        List.getLast?_append_of_ne_nil _ ht] at hc
      exact (hr rfl c hc).2
    · rw [List.getLast?_append_of_ne_nil _
          (show t.data ++ optChar (some c2) ≠ [] by simp [optChar]),
        List.getLast?_append_of_ne_nil _
          (show optChar (some c2) ≠ [] by simp [optChar])] at hc
      simp [optChar] at hc
      exact hc ▸ quote_not_ws c2 (hq2 c2 rfl)
  have htrimRest : jsTrim (optChar q1 ++ (t.data ++ optChar q2))
      = optChar q1 ++ (t.data ++ optChar q2) := jsTrim_id _ hh hlast
  have hrne : optChar q1 ++ (t.data ++ optChar q2) ≠ [] := by
    simp [List.append_eq_nil, ht]
  have htrimAll : jsTrim ('@' :: (name.data ++ (' ' :: (optChar q1 ++ (t.data ++ optChar q2)))))
      = '@' :: (name.data ++ (' ' :: (optChar q1 ++ (t.data ++ optChar q2)))) := by
    refine jsTrim_id _ ?_ ?_
    · intro c hc
      simp at hc
      exact hc ▸ (show jsWs '@' = false by decide)
    · intro c hc
      rw [show '@' :: (name.data ++ (' ' :: (optChar q1 ++ (t.data ++ optChar q2))))
          = ('@' :: name.data ++ [' ']) ++ (optChar q1 ++ (t.data ++ optChar q2))
          from by simp] at hc
      rw [List.getLast?_append_of_ne_nil _ hrne] at hc
      exact hlast c hc
  have hp : parseForeach (mkQuoted name q1 t q2) = ParseResult.ok name t := by
    have h := parseForeach_at_name name (optChar q1 ++ (t.data ++ optChar q2)) hn2
        htrimAll htrimRest (by rw [hstrip]; exact ht)
    rw [hstrip] at h
    exact h
  refine ⟨hp, ?_⟩
  simp only [executeForeach, hp]
  exact runLoop_invokeTexts runner t ctx (gen name).items (gen name).genErr 0 ctx

theorem foreach_quote_strip_witness :
    parseForeach (mkQuoted "files" (some '"') "hi" none) = ParseResult.ok "files" "hi" ∧
    invokeTexts (executeForeach bumpRunner threeGen
        (mkQuoted "files" (some '"') "hi" none) (0 : Nat)).1
      = ["hi", "hi", "hi"] := by
  have h := foreach_quote_strip bumpRunner threeGen "files" "hi" (some '"') none 0
      (by decide) (by decide)
      (fun c hc => by cases hc; decide)
      (fun c hc => by cases hc)
      (fun hq => by cases hq)
      (fun _ c hc => by
        rw [show ("hi".data.getLast? : Option Char) = some ('i') from rfl] at hc
        cases hc
        exact ⟨by decide, by decide⟩)
  exact ⟨h.1, h.2⟩

end Iterables
